import Mathlib

/-!
Verification of the `pm-js` market-operation layer (`src/markets.js`).

The repository ships one source file, `src/markets.js`, holding the three
trading operations `buyOutcomeTokens`, `sellOutcomeTokens` and
`shortSellOutcomeTokens` (plus `createMarket`, built from a wrapper that
lives outside the shipped sources).  The helpers it imports from
`./utils` — `normalizeWeb3Args`, `requireEventFromTXResult`,
`sendTransactionAndGetResult` — and the arbitrary-precision amount
arithmetic are not part of the shipped sources, so they are modelled here
from the specification (each such definition says so in its doc comment).
The three operations themselves are embedded directly from
`src/markets.js`: each is a function from a chain environment (the
responses the external contracts give) and a call to a result together
with the ordered trace of network actions it performed.
-/

namespace PmJs

/-- A canonically typed argument value: a resolved contract address or a
canonical big-integer amount. -/
inductive Value where
  | addr (a : String)
  | uint (n : Nat)
deriving DecidableEq, Repr

/-- A loosely typed caller-supplied value, per the spec's accepted input
shapes: a raw string (address or numeric string), a number, an
arbitrary-precision integer, or a contract handle exposing its own
address. -/
inductive InputValue where
  | str (s : String)
  | num (n : Nat)
  | big (n : Nat)
  | handle (address : String)
deriving DecidableEq, Repr

/-- A semantic argument type of the normalization signature: `address` or
an unsigned-integer type of a given bit width (`uint8`, `uint256`, …). -/
inductive SolType where
  | address
  | uint (width : Nat)
deriving DecidableEq, Repr

/-- One entry of a function signature, as written in `markets.js`:
`{ name: 'market', type: 'address' }`. -/
structure FunctionInput where
  name : String
  type : SolType
deriving DecidableEq, Repr

/-- The error kinds of the layer (spec §7). -/
inductive MarketsError where
  | argumentError (methodName : String)
  | missingEventError (eventName : String)
  | transactionFailure
  | arithmeticFailure
deriving DecidableEq, Repr

/-- A decoded event of a transaction receipt: its name and its named
fields. -/
structure DecodedEvent where
  name : String
  args : List (String × Value)
deriving DecidableEq, Repr

/-- A transaction receipt: the ordered decoded event log. -/
structure TxReceipt where
  events : List DecodedEvent
deriving DecidableEq, Repr

/-- One network interaction performed by an operation: a read-only
contract query or a state-changing transaction, with its target address,
method name and ordered arguments. -/
inductive NetworkAction where
  | query (target : String) (method : String) (args : List Value)
  | transaction (target : String) (method : String) (args : List Value)
deriving DecidableEq, Repr

/-- Whether a network action is a state-changing transaction. -/
def NetworkAction.isTransaction : NetworkAction → Bool
  | .query _ _ _ => false
  | .transaction _ _ _ => true

/-- The chain environment an operation runs against: the configured LMSR
market-maker address and the responses of the external contracts.  A
`none` response models the underlying layer reporting a failure
(`TransactionFailure`); `submit` gives the receipt of a submitted
transaction, keyed by target, method and arguments. -/
structure Chain where
  lmsrMarketMaker : String
  eventContract : String → Option String
  collateralToken : String → Option String
  outcomeTokens : String → Nat → Option String
  calcCost : String → Nat → Nat → Option Nat
  calcProfit : String → Nat → Nat → Option Nat
  calcMarketFee : String → Nat → Option Nat
  submit : String → String → List Value → Option TxReceipt

/-- A heterogeneous call: an ordered positional argument list or a single
mapping of named values. -/
inductive Web3Call where
  | positional (args : List InputValue)
  | named (opts : List (String × InputValue))
deriving DecidableEq, Repr

/-- Modelled from the spec: an address "must resolve to a fixed-length
hex identifier" — a 0x-prefixed string of 42 characters (20 bytes of
hex). -/
def isValidAddress (s : String) : Bool :=
  match s.data with
  | '0' :: 'x' :: rest => rest.length == 40
  | _ => false

/-- Decimal digits of a numeric string, accumulated left to right;
`none` as soon as a non-digit character appears. -/
def parseNatAux : List Char → Nat → Option Nat
  | [], acc => some acc
  | c :: cs, acc =>
    if c.isDigit then parseNatAux cs (acc * 10 + (c.toNat - 48)) else none

/-- Modelled from the spec: parse a numeric string as an unsigned
arbitrary-precision integer; `none` when the string is empty or holds a
non-digit character. -/
def parseNat? (s : String) : Option Nat :=
  match s.data with
  | [] => none
  | cs => parseNatAux cs 0

/-- Modelled from the spec: coercion of one loosely typed value to its
declared semantic type.  `address` accepts a raw identifier string or a
handle exposing its own address; `uintN` accepts numeric, numeric-string
or big-integer input, normalized to a canonical big integer, within the
declared bit width.  `none` means the value cannot be coerced. -/
def coerceValue : SolType → InputValue → Option Value
  | .address, .str s => if isValidAddress s then some (.addr s) else none
  | .address, .handle a => if isValidAddress a then some (.addr a) else none
  | .address, _ => none
  | .uint w, .num n => if n < 2 ^ w then some (.uint n) else none
  | .uint w, .big n => if n < 2 ^ w then some (.uint n) else none
  | .uint w, .str s =>
    match parseNat? s with
    | some n => if n < 2 ^ w then some (.uint n) else none
    | none => none
  | .uint _, .handle _ => none

/-- Modelled from the spec: resolve an external-facing parameter name
through the alias table (e.g. `event` ↦ `eventContract`); a name with no
alias entry stands for itself. -/
def resolveAlias (aliases : List (String × String)) (k : String) : String :=
  match aliases.lookup k with
  | some n => n
  | none => k

/-- Modelled from the spec: coerce an ordered value list against a
signature, position by position; fails when the lengths mismatch or some
value cannot be coerced. -/
def coerceAll : List FunctionInput → List InputValue → Option (List Value)
  | [], [] => some []
  | fi :: fis, v :: vs =>
    match coerceValue fi.type v with
    | some w => (coerceAll fis vs).map (fun ws => w :: ws)
    | none => none
  | _, _ => none

/-- Modelled from the spec: for each signature parameter in order, look
its (alias-resolved) name up in the named-argument mapping; fails when a
required parameter is missing. -/
def gatherNamed (resolved : List (String × InputValue)) :
    List FunctionInput → Option (List InputValue)
  | [] => some []
  | fi :: fis =>
    match resolved.lookup fi.name with
    | some v => (gatherNamed resolved fis).map (fun vs => v :: vs)
    | none => none

/-- Modelled from the spec: the Argument Normalizer (`normalizeWeb3Args`
of `./utils`, not among the shipped sources).  Given a heterogeneous call
and a function signature, produce the ordered, canonically typed argument
list; fail with `ArgumentError` when a required parameter is missing, a
positional list length mismatches the signature length, a value cannot be
coerced to its declared type, or an unrecognized named parameter is
supplied. -/
def normalizeWeb3Args (call : Web3Call) (methodName : String)
    (functionInputs : List FunctionInput)
    (argAliases : List (String × String)) :
    Except MarketsError (List Value) :=
  match call with
  | .positional vs =>
    match coerceAll functionInputs vs with
    | some out => .ok out
    | none => .error (.argumentError methodName)
  | .named opts =>
    let resolved := opts.map (fun p => (resolveAlias argAliases p.1, p.2))
    if resolved.all (fun p => functionInputs.any (fun fi => fi.name == p.1)) then
      match gatherNamed resolved functionInputs with
      | some vs =>
        match coerceAll functionInputs vs with
        | some out => .ok out
        | none => .error (.argumentError methodName)
      | none => .error (.argumentError methodName)
    else .error (.argumentError methodName)

/-- Modelled from the spec: the dispatcher variant that only asserts that
an event of the given name exists in the receipt
(`requireEventFromTXResult` of `./utils`, not among the shipped
sources). -/
def requireEventFromTXResult (result : TxReceipt) (eventName : String) :
    Except MarketsError Unit :=
  if result.events.any (fun e => e.name == eventName) then .ok ()
  else .error (.missingEventError eventName)

/-- Modelled from the spec: the event-extraction step of the Transaction
Dispatcher (`sendTransactionAndGetResult` of `./utils`, not among the
shipped sources): scan the receipt's decoded event log for an entry whose
event name matches the expected name; if found, return the value of the
requested field from that event, else fail with `MissingEventError`
naming the expected event. -/
def sendTransactionAndGetResult (result : TxReceipt) (eventName : String)
    (eventArgName : String) : Except MarketsError (Option Value) :=
  match result.events.find? (fun e => e.name == eventName) with
  | some e => .ok (e.args.lookup eventArgName)
  | none => .error (.missingEventError eventName)

/-- Modelled from the spec: exact subtraction on arbitrary-precision
unsigned amounts — "fee subtraction that would go negative … must fail
explicitly rather than silently wrap or truncate" (spec §3, §7).  The
shipped sources call `.sub` on the external big-number type, which is not
part of the repository. -/
def checkedSub (a b : Nat) : Except MarketsError Nat :=
  if b ≤ a then .ok (a - b) else .error .arithmeticFailure

/-- The normalization signature shared verbatim by `buyOutcomeTokens`,
`sellOutcomeTokens` and `shortSellOutcomeTokens` in `src/markets.js`:
`market : address`, `outcomeTokenIndex : uint8`,
`outcomeTokenCount : uint256`. -/
def tradeFunctionInputs : List FunctionInput :=
  [⟨"market", .address⟩,
   ⟨"outcomeTokenIndex", .uint 8⟩,
   ⟨"outcomeTokenCount", .uint 256⟩]

/-- `buyOutcomeTokens` from `src/markets.js`: normalize the arguments,
read the market's event contract and its collateral token, query the LMSR
market maker for the base cost and the market for its fee on that base
cost, submit an approval of `outcomeTokenCount` on the collateral token,
then submit `buy(outcomeTokenIndex, outcomeTokenCount, cost)` with
`cost = baseCost + fee` and extract the `cost` field of the
`OutcomeTokenPurchase` event.  Returns the result together with the
ordered trace of network actions performed. -/
def buyOutcomeTokens (self : Chain) (call : Web3Call) :
    Except MarketsError (Option Value) × List NetworkAction :=
  match normalizeWeb3Args call "buyOutcomeTokens" tradeFunctionInputs [] with
  | .error e => (.error e, [])
  | .ok vals =>
    match vals with
    | [Value.addr marketAddress, Value.uint outcomeTokenIndex,
       Value.uint outcomeTokenCount] =>
      let q1 := NetworkAction.query marketAddress "eventContract" []
      match self.eventContract marketAddress with
      | none => (.error .transactionFailure, [q1])
      | some eventAddress =>
        let q2 := NetworkAction.query eventAddress "collateralToken" []
        match self.collateralToken eventAddress with
        | none => (.error .transactionFailure, [q1, q2])
        | some collateralTokenAddress =>
          let q3 := NetworkAction.query self.lmsrMarketMaker "calcCost"
            [Value.addr marketAddress, Value.uint outcomeTokenIndex,
             Value.uint outcomeTokenCount]
          match self.calcCost marketAddress outcomeTokenIndex outcomeTokenCount with
          | none => (.error .transactionFailure, [q1, q2, q3])
          | some baseCost =>
            let q4 := NetworkAction.query marketAddress "calcMarketFee"
              [Value.uint baseCost]
            match self.calcMarketFee marketAddress baseCost with
            | none => (.error .transactionFailure, [q1, q2, q3, q4])
            | some fee =>
              let cost := baseCost + fee
              let approveArgs := [Value.addr marketAddress,
                Value.uint outcomeTokenCount]
              let t5 := NetworkAction.transaction collateralTokenAddress
                "approve" approveArgs
              match self.submit collateralTokenAddress "approve" approveArgs with
              | none => (.error .transactionFailure, [q1, q2, q3, q4, t5])
              | some approveReceipt =>
                match requireEventFromTXResult approveReceipt "Approval" with
                | .error e => (.error e, [q1, q2, q3, q4, t5])
                | .ok _ =>
                  let buyArgs := [Value.uint outcomeTokenIndex,
                    Value.uint outcomeTokenCount, Value.uint cost]
                  let t6 := NetworkAction.transaction marketAddress "buy" buyArgs
                  match self.submit marketAddress "buy" buyArgs with
                  | none => (.error .transactionFailure, [q1, q2, q3, q4, t5, t6])
                  | some buyReceipt =>
                    (sendTransactionAndGetResult buyReceipt
                      "OutcomeTokenPurchase" "cost",
                     [q1, q2, q3, q4, t5, t6])
    | _ => (.error (.argumentError "buyOutcomeTokens"), [])

/-- `sellOutcomeTokens` from `src/markets.js`: normalize the arguments,
read the market's event contract and the outcome token at the given
index, query the LMSR market maker for the base profit and the market for
its fee on that base profit, compute `minProfit = baseProfit − fee` by
exact unsigned subtraction (which fails rather than wrapping negative),
submit an approval of `outcomeTokenCount` on the outcome token, then
submit `sell(outcomeTokenIndex, outcomeTokenCount, minProfit)` and
extract the `profit` field of the `OutcomeTokenSale` event. -/
def sellOutcomeTokens (self : Chain) (call : Web3Call) :
    Except MarketsError (Option Value) × List NetworkAction :=
  match normalizeWeb3Args call "sellOutcomeTokens" tradeFunctionInputs [] with
  | .error e => (.error e, [])
  | .ok vals =>
    match vals with
    | [Value.addr marketAddress, Value.uint outcomeTokenIndex,
       Value.uint outcomeTokenCount] =>
      let q1 := NetworkAction.query marketAddress "eventContract" []
      match self.eventContract marketAddress with
      | none => (.error .transactionFailure, [q1])
      | some eventAddress =>
        let q2 := NetworkAction.query eventAddress "outcomeTokens"
          [Value.uint outcomeTokenIndex]
        match self.outcomeTokens eventAddress outcomeTokenIndex with
        | none => (.error .transactionFailure, [q1, q2])
        | some outcomeTokenAddress =>
          let q3 := NetworkAction.query self.lmsrMarketMaker "calcProfit"
            [Value.addr marketAddress, Value.uint outcomeTokenIndex,
             Value.uint outcomeTokenCount]
          match self.calcProfit marketAddress outcomeTokenIndex outcomeTokenCount with
          | none => (.error .transactionFailure, [q1, q2, q3])
          | some baseProfit =>
            let q4 := NetworkAction.query marketAddress "calcMarketFee"
              [Value.uint baseProfit]
            match self.calcMarketFee marketAddress baseProfit with
            | none => (.error .transactionFailure, [q1, q2, q3, q4])
            | some fee =>
              match checkedSub baseProfit fee with
              | .error e => (.error e, [q1, q2, q3, q4])
              | .ok minProfit =>
                let approveArgs := [Value.addr marketAddress,
                  Value.uint outcomeTokenCount]
                let t5 := NetworkAction.transaction outcomeTokenAddress
                  "approve" approveArgs
                match self.submit outcomeTokenAddress "approve" approveArgs with
                | none => (.error .transactionFailure, [q1, q2, q3, q4, t5])
                | some approveReceipt =>
                  match requireEventFromTXResult approveReceipt "Approval" with
                  | .error e => (.error e, [q1, q2, q3, q4, t5])
                  | .ok _ =>
                    let sellArgs := [Value.uint outcomeTokenIndex,
                      Value.uint outcomeTokenCount, Value.uint minProfit]
                    let t6 := NetworkAction.transaction marketAddress "sell" sellArgs
                    match self.submit marketAddress "sell" sellArgs with
                    | none =>
                      (.error .transactionFailure, [q1, q2, q3, q4, t5, t6])
                    | some sellReceipt =>
                      (sendTransactionAndGetResult sellReceipt
                        "OutcomeTokenSale" "profit",
                       [q1, q2, q3, q4, t5, t6])
    | _ => (.error (.argumentError "sellOutcomeTokens"), [])

/-- `shortSellOutcomeTokens` from `src/markets.js`: normalize the
arguments, read the market's event contract and its collateral token (the
collateral-token value is bound but never used), then directly submit
`shortSell(outcomeTokenIndex, outcomeTokenCount, 0)` — the literal cost
floor 0, no approval, no pricing query — and extract the `cost` field of
the `OutcomeTokenShortSale` event. -/
def shortSellOutcomeTokens (self : Chain) (call : Web3Call) :
    Except MarketsError (Option Value) × List NetworkAction :=
  match normalizeWeb3Args call "shortSellOutcomeTokens" tradeFunctionInputs [] with
  | .error e => (.error e, [])
  | .ok vals =>
    match vals with
    | [Value.addr marketAddress, Value.uint outcomeTokenIndex,
       Value.uint outcomeTokenCount] =>
      let q1 := NetworkAction.query marketAddress "eventContract" []
      match self.eventContract marketAddress with
      | none => (.error .transactionFailure, [q1])
      | some eventAddress =>
        let q2 := NetworkAction.query eventAddress "collateralToken" []
        match self.collateralToken eventAddress with
        | none => (.error .transactionFailure, [q1, q2])
        | some _collateralTokenAddress =>
          let shortSellArgs := [Value.uint outcomeTokenIndex,
            Value.uint outcomeTokenCount, Value.uint 0]
          let t3 := NetworkAction.transaction marketAddress "shortSell" shortSellArgs
          match self.submit marketAddress "shortSell" shortSellArgs with
          | none => (.error .transactionFailure, [q1, q2, t3])
          | some shortSellReceipt =>
            (sendTransactionAndGetResult shortSellReceipt
              "OutcomeTokenShortSale" "cost",
             [q1, q2, t3])
    | _ => (.error (.argumentError "shortSellOutcomeTokens"), [])

/-- The malformed-call conditions of spec §4.1, as a decidable predicate:
a required parameter is missing from a named mapping, a positional list
length mismatches the signature length, a supplied value cannot be
coerced to its declared type, or an unrecognized named parameter is
supplied. -/
def malformedCall (call : Web3Call) (functionInputs : List FunctionInput)
    (argAliases : List (String × String)) : Bool :=
  match call with
  | .positional vs =>
    vs.length != functionInputs.length ||
    (functionInputs.zip vs).any (fun p => (coerceValue p.1.type p.2).isNone)
  | .named opts =>
    let resolved := opts.map (fun p => (resolveAlias argAliases p.1, p.2))
    functionInputs.any (fun fi => (resolved.lookup fi.name).isNone) ||
    !(resolved.all (fun p => functionInputs.any (fun fi => fi.name == p.1))) ||
    functionInputs.any (fun fi =>
      match resolved.lookup fi.name with
      | some v => (coerceValue fi.type v).isNone
      | none => false)

/-- The full ordered network-action pipeline of `buyOutcomeTokens` for a
given chain and call: the two contract reads, the two pricing queries,
the approval and the `buy` transaction.  Every actual run performs a
prefix of this list (empty when normalization fails). -/
def buyIdealTrace (self : Chain) (call : Web3Call) : List NetworkAction :=
  match normalizeWeb3Args call "buyOutcomeTokens" tradeFunctionInputs [] with
  | .error _ => []
  | .ok vals =>
    match vals with
    | [Value.addr m, Value.uint i, Value.uint c] =>
      let e := (self.eventContract m).getD ""
      let tok := (self.collateralToken e).getD ""
      let b := (self.calcCost m i c).getD 0
      let f := (self.calcMarketFee m b).getD 0
      [NetworkAction.query m "eventContract" [],
       NetworkAction.query e "collateralToken" [],
       NetworkAction.query self.lmsrMarketMaker "calcCost"
         [Value.addr m, Value.uint i, Value.uint c],
       NetworkAction.query m "calcMarketFee" [Value.uint b],
       NetworkAction.transaction tok "approve" [Value.addr m, Value.uint c],
       NetworkAction.transaction m "buy"
         [Value.uint i, Value.uint c, Value.uint (b + f)]]
    | _ => []

/-- The full ordered network-action pipeline of `sellOutcomeTokens` for a
given chain and call; every actual run performs a prefix of it. -/
def sellIdealTrace (self : Chain) (call : Web3Call) : List NetworkAction :=
  match normalizeWeb3Args call "sellOutcomeTokens" tradeFunctionInputs [] with
  | .error _ => []
  | .ok vals =>
    match vals with
    | [Value.addr m, Value.uint i, Value.uint c] =>
      let e := (self.eventContract m).getD ""
      let tok := (self.outcomeTokens e i).getD ""
      let p := (self.calcProfit m i c).getD 0
      let f := (self.calcMarketFee m p).getD 0
      [NetworkAction.query m "eventContract" [],
       NetworkAction.query e "outcomeTokens" [Value.uint i],
       NetworkAction.query self.lmsrMarketMaker "calcProfit"
         [Value.addr m, Value.uint i, Value.uint c],
       NetworkAction.query m "calcMarketFee" [Value.uint p],
       NetworkAction.transaction tok "approve" [Value.addr m, Value.uint c],
       NetworkAction.transaction m "sell"
         [Value.uint i, Value.uint c, Value.uint (p - f)]]
    | _ => []

/-- The full ordered network-action pipeline of `shortSellOutcomeTokens`
for a given chain and call; every actual run performs a prefix of it. -/
def shortSellIdealTrace (self : Chain) (call : Web3Call) : List NetworkAction :=
  match normalizeWeb3Args call "shortSellOutcomeTokens" tradeFunctionInputs [] with
  | .error _ => []
  | .ok vals =>
    match vals with
    | [Value.addr m, Value.uint i, Value.uint c] =>
      let e := (self.eventContract m).getD ""
      [NetworkAction.query m "eventContract" [],
       NetworkAction.query e "collateralToken" [],
       NetworkAction.transaction m "shortSell"
         [Value.uint i, Value.uint c, Value.uint 0]]
    | _ => []

/-- The actions `shortSellOutcomeTokens` is allowed to perform: read-only
queries that are not pricing queries (`calcCost`/`calcMarketFee`), and
only `shortSell` transactions whose third argument is the literal cost
floor 0. -/
def shortSellActionOk : NetworkAction → Bool
  | .query _ m _ => !(m == "calcCost") && !(m == "calcMarketFee")
  | .transaction _ m args =>
    m == "shortSell" &&
    match args with
    | [Value.uint _, Value.uint _, Value.uint z] => z == 0
    | _ => false

/-- A chain whose event-contract and collateral-token lookups always
answer, with the answers given by the two function parameters; used to
state that `shortSellOutcomeTokens` does not depend on those lookup
values. -/
def withLookups (base : Chain) (f g : String → String) : Chain :=
  { base with
    eventContract := fun a => some (f a),
    collateralToken := fun a => some (g a) }

/-- A well-formed market address used by the concrete witnesses. -/
def marketAddr : String := "0x1111111111111111111111111111111111111111"

/-- A well-formed event-contract address used by the concrete witnesses. -/
def eventAddr : String := "0x2222222222222222222222222222222222222222"

/-- A well-formed collateral-token address used by the concrete
witnesses. -/
def tokenAddr : String := "0x3333333333333333333333333333333333333333"

/-- A well-formed outcome-token address used by the concrete witnesses. -/
def outcomeAddr : String := "0x4444444444444444444444444444444444444444"

/-- A well-formed LMSR-market-maker address used by the concrete
witnesses. -/
def lmsrAddr : String := "0x5555555555555555555555555555555555555555"

/-- A receipt whose decoded log holds exactly one `Approval` event. -/
def approvalReceipt : TxReceipt := ⟨[⟨"Approval", []⟩]⟩

/-- A concrete chain for the witnesses: every lookup answers, the base
cost and base profit are 100, the market fee is 5% (spec §8's end-to-end
scenario), and every submitted transaction confirms with an `Approval`
event. -/
def testChain : Chain :=
  { lmsrMarketMaker := lmsrAddr
    eventContract := fun _ => some eventAddr
    collateralToken := fun _ => some tokenAddr
    outcomeTokens := fun _ _ => some outcomeAddr
    calcCost := fun _ _ _ => some 100
    calcProfit := fun _ _ _ => some 100
    calcMarketFee := fun _ b => some (b / 20)
    submit := fun _ _ _ => some approvalReceipt }

/-- `testChain` with a market fee strictly above the amount it is
computed on, so that fee-on-profit exceeds the base profit. -/
def feeExceedsChain : Chain :=
  { testChain with calcMarketFee := fun _ b => some (b + 1) }

/-- The concrete positional call of the witnesses: buy/sell/short-sell 10
outcome tokens at index 0. -/
def testCall : Web3Call := .positional [.str marketAddr, .num 0, .num 10]

/-- A concrete named call that omits the required `market` parameter. -/
def missingMarketCall : Web3Call :=
  .named [("outcomeTokenIndex", .num 0), ("outcomeTokenCount", .num 10)]

/-- A receipt holding an unrelated `Transfer` event followed by an
`OutcomeTokenPurchase` event whose `cost` field is 105. -/
def purchaseReceipt : TxReceipt :=
  ⟨[⟨"Transfer", [("value", .uint 7)]⟩,
    ⟨"OutcomeTokenPurchase", [("cost", .uint 105)]⟩]⟩

/-- The `OutcomeTokenPurchase` event of `purchaseReceipt`. -/
def purchaseEvent : DecodedEvent :=
  ⟨"OutcomeTokenPurchase", [("cost", .uint 105)]⟩

/-- A receipt holding only events unrelated to any expected one. -/
def unrelatedReceipt : TxReceipt :=
  ⟨[⟨"Transfer", [("value", .uint 7)]⟩, ⟨"Approval", []⟩]⟩

/-- A successful `coerceAll` forces the value list to have the
signature's length. -/
theorem coerceAll_some_length {fis : List FunctionInput} {vs : List InputValue}
    {out : List Value} (h : coerceAll fis vs = some out) :
    vs.length = fis.length := by
  induction fis generalizing vs out with
  | nil =>
    cases vs with
    | nil => rfl
    | cons v vs => simp [coerceAll] at h
  | cons fi fis ih =>
    cases vs with
    | nil => simp [coerceAll] at h
    | cons v vs =>
      simp only [coerceAll] at h
      cases hc : coerceValue fi.type v with
      | none => rw [hc] at h; cases h
      | some w =>
        rw [hc] at h
        cases hrest : coerceAll fis vs with
        | none => rw [hrest] at h; cases h
        | some ws => simp [List.length_cons, ih hrest]

/-- A length mismatch makes `coerceAll` fail. -/
theorem coerceAll_length_ne {fis : List FunctionInput} {vs : List InputValue}
    (h : vs.length ≠ fis.length) : coerceAll fis vs = none := by
  cases hc : coerceAll fis vs with
  | none => rfl
  | some out => exact absurd (coerceAll_some_length hc) h

/-- A value that cannot be coerced to its declared type makes `coerceAll`
fail. -/
theorem coerceAll_any_none {fis : List FunctionInput} {vs : List InputValue}
    (h : (fis.zip vs).any (fun p => (coerceValue p.1.type p.2).isNone) = true) :
    coerceAll fis vs = none := by
  induction fis generalizing vs with
  | nil => cases vs <;> simp at h
  | cons fi fis ih =>
    cases vs with
    | nil => simp at h
    | cons v vs =>
      simp only [List.zip_cons_cons, List.any_cons, Bool.or_eq_true] at h
      simp only [coerceAll]
      rcases h with h | h
      · rw [Option.isNone_iff_eq_none] at h
        rw [h]
      · cases hc : coerceValue fi.type v with
        | none => rfl
        | some w => rw [ih h]; rfl

/-- A required parameter missing from the resolved mapping makes
`gatherNamed` fail. -/
theorem gatherNamed_missing {resolved : List (String × InputValue)}
    {fis : List FunctionInput}
    (h : fis.any (fun fi => (resolved.lookup fi.name).isNone) = true) :
    gatherNamed resolved fis = none := by
  induction fis with
  | nil => simp at h
  | cons fi fis ih =>
    simp only [List.any_cons, Bool.or_eq_true] at h
    simp only [gatherNamed]
    rcases h with h | h
    · rw [Option.isNone_iff_eq_none] at h
      rw [h]
    · cases hl : resolved.lookup fi.name with
      | none => rfl
      | some v => rw [ih h]; rfl

/-- When some gathered named value cannot be coerced to its declared
type, the coercion of the gathered list fails. -/
theorem gatherNamed_coerce_none {resolved : List (String × InputValue)}
    {fis : List FunctionInput} {ws : List InputValue}
    (hg : gatherNamed resolved fis = some ws)
    (h : fis.any (fun fi =>
          match resolved.lookup fi.name with
          | some v => (coerceValue fi.type v).isNone
          | none => false) = true) :
    coerceAll fis ws = none := by
  induction fis generalizing ws with
  | nil => simp at h
  | cons fi fis ih =>
    simp only [gatherNamed] at hg
    cases hl : resolved.lookup fi.name with
    | none => rw [hl] at hg; cases hg
    | some v =>
      rw [hl] at hg
      cases hrest : gatherNamed resolved fis with
      | none => rw [hrest] at hg; cases hg
      | some ws' =>
        rw [hrest] at hg
        simp only [Option.map_some'] at hg
        injection hg with hws
        subst hws
        simp only [List.any_cons, Bool.or_eq_true] at h
        rcases h with h | h
        · simp only [hl] at h
          rw [Option.isNone_iff_eq_none] at h
          simp [coerceAll, h]
        · simp only [coerceAll]
          cases hc : coerceValue fi.type v with
          | none => rfl
          | some w => rw [ih hrest h]; rfl

/-- Any malformed call (spec §4.1's four failure conditions) makes the
Argument Normalizer fail with `ArgumentError`. -/
theorem normalizeWeb3Args_malformed {call : Web3Call}
    {fis : List FunctionInput} {aliases : List (String × String)}
    (mn : String) (h : malformedCall call fis aliases = true) :
    normalizeWeb3Args call mn fis aliases = .error (.argumentError mn) := by
  cases call with
  | positional vs =>
    simp only [malformedCall, Bool.or_eq_true, bne_iff_ne, ne_eq] at h
    have hnone : coerceAll fis vs = none := by
      rcases h with h | h
      · exact coerceAll_length_ne h
      · exact coerceAll_any_none h
    simp [normalizeWeb3Args, hnone]
  | named opts =>
    simp only [malformedCall, Bool.or_eq_true] at h
    simp only [normalizeWeb3Args]
    rcases h with (h | h) | h
    · cases hall : (opts.map (fun p => (resolveAlias aliases p.1, p.2))).all
        (fun p => fis.any (fun fi => fi.name == p.1)) with
      | false => simp [hall]
      | true => simp [hall, gatherNamed_missing h]
    · rw [Bool.not_eq_true'] at h
      simp [h]
    · cases hall : (opts.map (fun p => (resolveAlias aliases p.1, p.2))).all
        (fun p => fis.any (fun fi => fi.name == p.1)) with
      | false => simp [hall]
      | true =>
        cases hg : gatherNamed (opts.map (fun p => (resolveAlias aliases p.1, p.2))) fis with
        | none => simp [hall, hg]
        | some ws => simp [hall, hg, gatherNamed_coerce_none hg h]

/-- Resolving the keys of a zipped association list is zipping the
resolved keys. -/
theorem zip_map_resolve {f : String → String} :
    ∀ (ks : List String) (vs : List InputValue),
    (ks.zip vs).map (fun p => (f p.1, p.2)) = (ks.map f).zip vs := by
  intro ks
  induction ks with
  | nil => intro vs; rfl
  | cons k ks ih =>
    intro vs
    cases vs with
    | nil => rfl
    | cons v vs => simp [List.zip_cons_cons, ih]

/-- Looking a key up past a prefix none of whose keys equal it. -/
theorem lookup_append_of_ne {β : Type} {k : String}
    (pre l : List (String × β)) (h : ∀ p ∈ pre, p.1 ≠ k) :
    (pre ++ l).lookup k = l.lookup k := by
  induction pre with
  | nil => rfl
  | cons q pre ih =>
    obtain ⟨k', v'⟩ := q
    have hk : k' ≠ k := h (k', v') (List.mem_cons_self _ _)
    have hbeq : (k == k') = false := by
      simp [Ne.symm hk]
    simp only [List.cons_append, List.lookup, hbeq]
    exact ih (fun p hp => h p (List.mem_cons_of_mem _ hp))

/-- Gathering against a mapping that is the signature's own names zipped
with a value list (past an irrelevant prefix) returns exactly that value
list, when the names are distinct. -/
theorem gatherNamed_zip :
    ∀ (fis : List FunctionInput) (vs : List InputValue)
      (pre : List (String × InputValue)),
    (fis.map FunctionInput.name).Nodup →
    (∀ p ∈ pre, p.1 ∉ fis.map FunctionInput.name) →
    vs.length = fis.length →
    gatherNamed (pre ++ (fis.map FunctionInput.name).zip vs) fis = some vs := by
  intro fis
  induction fis with
  | nil =>
    intro vs pre _ _ hlen
    cases vs with
    | nil => rfl
    | cons v vs => simp at hlen
  | cons fi fis ih =>
    intro vs pre hnd hpre hlen
    cases vs with
    | nil => simp at hlen
    | cons v vs =>
      simp only [List.map_cons] at hnd hpre
      simp only [List.map_cons, List.zip_cons_cons]
      simp only [gatherNamed]
      have hl : (pre ++ (fi.name, v) :: (fis.map FunctionInput.name).zip vs).lookup fi.name
          = some v := by
        rw [lookup_append_of_ne pre _ (fun p hp hk =>
          hpre p hp (by rw [hk]; exact List.mem_cons_self _ _))]
        simp [List.lookup]
      rw [hl]
      have hsplit : pre ++ (fi.name, v) :: (fis.map FunctionInput.name).zip vs
          = (pre ++ [(fi.name, v)]) ++ (fis.map FunctionInput.name).zip vs := by
        simp
      rw [List.nodup_cons] at hnd
      have hpre2 : ∀ p ∈ pre ++ [(fi.name, v)], p.1 ∉ fis.map FunctionInput.name := by
        intro p hp
        rcases List.mem_append.mp hp with hp | hp
        · exact fun hm => hpre p hp (List.mem_cons_of_mem _ hm)
        · simp only [List.mem_singleton] at hp
          subst hp
          exact hnd.1
      rw [hsplit, ih vs (pre ++ [(fi.name, v)]) hnd.2 hpre2 (by simpa using hlen)]
      rfl

/-- Every key of the signature's own names zipped with values is a
recognized parameter name. -/
theorem zip_names_all_recognized (fis : List FunctionInput) (vs : List InputValue) :
    ((fis.map FunctionInput.name).zip vs).all
      (fun p => fis.any (fun fi => fi.name == p.1)) = true := by
  rw [List.all_eq_true]
  intro p hp
  obtain ⟨a, b⟩ := p
  have h1 : a ∈ fis.map FunctionInput.name := (List.of_mem_zip hp).1
  obtain ⟨fi, hfi, hname⟩ := List.mem_map.mp h1
  rw [List.any_eq_true]
  exact ⟨fi, hfi, by simp [hname]⟩

/-- A successful normalization always goes through a successful
`coerceAll` on some value list. -/
theorem normalizeWeb3Args_ok_coerceAll {call : Web3Call} {mn : String}
    {fis : List FunctionInput} {aliases : List (String × String)}
    {out : List Value}
    (h : normalizeWeb3Args call mn fis aliases = .ok out) :
    ∃ vs, coerceAll fis vs = some out := by
  cases call with
  | positional vs =>
    simp only [normalizeWeb3Args] at h
    cases hc : coerceAll fis vs with
    | none => rw [hc] at h; cases h
    | some o =>
      rw [hc] at h
      injection h with h
      subst h
      exact ⟨vs, hc⟩
  | named opts =>
    simp only [normalizeWeb3Args] at h
    split at h
    · split at h
      next ws hg =>
        split at h
        next o hc =>
          injection h with h
          subst h
          exact ⟨ws, hc⟩
        next hc => cases h
      next hg => cases h
    · cases h

/-- A value coerced to type `address` is an address. -/
theorem coerceValue_address_shape {v : InputValue} {w : Value}
    (h : coerceValue .address v = some w) :
    ∃ a, w = .addr a ∧ isValidAddress a = true := by
  cases v with
  | str s =>
    simp only [coerceValue] at h
    split at h
    · injection h with h
      exact ⟨s, h.symm, by assumption⟩
    · cases h
  | num n => simp [coerceValue] at h
  | big n => simp [coerceValue] at h
  | handle a =>
    simp only [coerceValue] at h
    split at h
    · injection h with h
      exact ⟨a, h.symm, by assumption⟩
    · cases h

/-- A value coerced to a `uintN` type is a canonical big integer within
the declared bit width. -/
theorem coerceValue_uint_shape {wd : Nat} {v : InputValue} {w : Value}
    (h : coerceValue (.uint wd) v = some w) :
    ∃ n, w = .uint n ∧ n < 2 ^ wd := by
  cases v with
  | str s =>
    simp only [coerceValue] at h
    split at h
    · rename_i n hp
      split at h
      · injection h with h
        exact ⟨n, h.symm, by assumption⟩
      · cases h
    · cases h
  | num n =>
    simp only [coerceValue] at h
    split at h
    · injection h with h
      exact ⟨n, h.symm, by assumption⟩
    · cases h
  | big n =>
    simp only [coerceValue] at h
    split at h
    · injection h with h
      exact ⟨n, h.symm, by assumption⟩
    · cases h
  | handle a => simp [coerceValue] at h

/-- A list successfully coerced against the shared trading signature is
a market address followed by a `uint8` index and a `uint256` count. -/
theorem coerceAll_trade_shape {vs : List InputValue} {out : List Value}
    (h : coerceAll tradeFunctionInputs vs = some out) :
    ∃ m i c, out = [Value.addr m, Value.uint i, Value.uint c]
      ∧ isValidAddress m = true ∧ i < 2 ^ 8 ∧ c < 2 ^ 256 := by
  have hlen : vs.length = 3 := coerceAll_some_length h
  match vs, hlen with
  | [v1, v2, v3], _ =>
    simp only [tradeFunctionInputs, coerceAll] at h
    cases h1 : coerceValue .address v1 with
    | none => rw [h1] at h; cases h
    | some w1 =>
      rw [h1] at h
      cases h2 : coerceValue (.uint 8) v2 with
      | none => rw [h2] at h; simp at h
      | some w2 =>
        rw [h2] at h
        cases h3 : coerceValue (.uint 256) v3 with
        | none => rw [h3] at h; simp at h
        | some w3 =>
          rw [h3] at h
          simp only [Option.map_some'] at h
          injection h with h
          subst h
          obtain ⟨m, hm, hmv⟩ := coerceValue_address_shape h1
          obtain ⟨i, hi, hiw⟩ := coerceValue_uint_shape h2
          obtain ⟨c, hc, hcw⟩ := coerceValue_uint_shape h3
          subst hm; subst hi; subst hc
          exact ⟨m, i, c, rfl, hmv, hiw, hcw⟩

/-- A successful normalization against the shared trading signature
yields a market address, a `uint8` index and a `uint256` count. -/
theorem normalizeWeb3Args_trade_shape {call : Web3Call} {mn : String}
    {out : List Value}
    (h : normalizeWeb3Args call mn tradeFunctionInputs [] = .ok out) :
    ∃ m i c, out = [Value.addr m, Value.uint i, Value.uint c]
      ∧ isValidAddress m = true ∧ i < 2 ^ 8 ∧ c < 2 ^ 256 := by
  obtain ⟨vs, hc⟩ := normalizeWeb3Args_ok_coerceAll h
  exact coerceAll_trade_shape hc

/-- Every run of `buyOutcomeTokens` performs an initial segment of its
pipeline: the trace equals the ideal trace cut at the point the run
stopped, so a failed step prevents every later step. -/
theorem buy_trace_take (self : Chain) (call : Web3Call) :
    (buyOutcomeTokens self call).2
      = (buyIdealTrace self call).take (buyOutcomeTokens self call).2.length := by
  cases h0 : normalizeWeb3Args call "buyOutcomeTokens" tradeFunctionInputs [] with
  | error e => simp [buyOutcomeTokens, buyIdealTrace, h0]
  | ok vals =>
    obtain ⟨m, i, c, rfl, -, -, -⟩ := normalizeWeb3Args_trade_shape h0
    cases h1 : self.eventContract m with
    | none => simp [buyOutcomeTokens, buyIdealTrace, h0, h1]
    | some e =>
      cases h2 : self.collateralToken e with
      | none => simp [buyOutcomeTokens, buyIdealTrace, h0, h1, h2]
      | some tok =>
        cases h3 : self.calcCost m i c with
        | none => simp [buyOutcomeTokens, buyIdealTrace, h0, h1, h2, h3]
        | some b =>
          cases h4 : self.calcMarketFee m b with
          | none => simp [buyOutcomeTokens, buyIdealTrace, h0, h1, h2, h3, h4]
          | some f =>
            cases h5 : self.submit tok "approve" [Value.addr m, Value.uint c] with
            | none => simp [buyOutcomeTokens, buyIdealTrace, h0, h1, h2, h3, h4, h5]
            | some rc =>
              cases h6 : requireEventFromTXResult rc "Approval" with
              | error err =>
                simp [buyOutcomeTokens, buyIdealTrace, h0, h1, h2, h3, h4, h5, h6]
              | ok u =>
                cases h7 : self.submit m "buy"
                    [Value.uint i, Value.uint c, Value.uint (b + f)] with
                | none =>
                  simp [buyOutcomeTokens, buyIdealTrace, h0, h1, h2, h3, h4, h5, h6, h7]
                | some rc2 =>
                  simp [buyOutcomeTokens, buyIdealTrace, h0, h1, h2, h3, h4, h5, h6, h7]

/-- Every run of `sellOutcomeTokens` performs an initial segment of its
pipeline: the trace equals the ideal trace cut at the point the run
stopped, so a failed step prevents every later step. -/
theorem sell_trace_take (self : Chain) (call : Web3Call) :
    (sellOutcomeTokens self call).2
      = (sellIdealTrace self call).take (sellOutcomeTokens self call).2.length := by
  cases h0 : normalizeWeb3Args call "sellOutcomeTokens" tradeFunctionInputs [] with
  | error e => simp [sellOutcomeTokens, sellIdealTrace, h0]
  | ok vals =>
    obtain ⟨m, i, c, rfl, -, -, -⟩ := normalizeWeb3Args_trade_shape h0
    cases h1 : self.eventContract m with
    | none => simp [sellOutcomeTokens, sellIdealTrace, h0, h1]
    | some e =>
      cases h2 : self.outcomeTokens e i with
      | none => simp [sellOutcomeTokens, sellIdealTrace, h0, h1, h2]
      | some tok =>
        cases h3 : self.calcProfit m i c with
        | none => simp [sellOutcomeTokens, sellIdealTrace, h0, h1, h2, h3]
        | some p =>
          cases h4 : self.calcMarketFee m p with
          | none => simp [sellOutcomeTokens, sellIdealTrace, h0, h1, h2, h3, h4]
          | some f =>
            cases h5 : checkedSub p f with
            | error err =>
              simp [sellOutcomeTokens, sellIdealTrace, h0, h1, h2, h3, h4, h5]
            | ok mp =>
              have hmp : mp = p - f := by
                simp only [checkedSub] at h5
                split at h5
                · injection h5 with h5
                  exact h5.symm
                · cases h5
              subst hmp
              cases h6 : self.submit tok "approve" [Value.addr m, Value.uint c] with
              | none =>
                simp [sellOutcomeTokens, sellIdealTrace, h0, h1, h2, h3, h4, h5, h6]
              | some rc =>
                cases h7 : requireEventFromTXResult rc "Approval" with
                | error err =>
                  simp [sellOutcomeTokens, sellIdealTrace, h0, h1, h2, h3, h4, h5, h6, h7]
                | ok u =>
                  cases h8 : self.submit m "sell"
                      [Value.uint i, Value.uint c, Value.uint (p - f)] with
                  | none =>
                    simp [sellOutcomeTokens, sellIdealTrace,
                      h0, h1, h2, h3, h4, h5, h6, h7, h8]
                  | some rc2 =>
                    simp [sellOutcomeTokens, sellIdealTrace,
                      h0, h1, h2, h3, h4, h5, h6, h7, h8]

/-- Every run of `shortSellOutcomeTokens` performs an initial segment of
its pipeline: the trace equals the ideal trace cut at the point the run
stopped, so a failed step prevents every later step. -/
theorem shortSell_trace_take (self : Chain) (call : Web3Call) :
    (shortSellOutcomeTokens self call).2
      = (shortSellIdealTrace self call).take
          (shortSellOutcomeTokens self call).2.length := by
  cases h0 : normalizeWeb3Args call "shortSellOutcomeTokens" tradeFunctionInputs [] with
  | error e => simp [shortSellOutcomeTokens, shortSellIdealTrace, h0]
  | ok vals =>
    obtain ⟨m, i, c, rfl, -, -, -⟩ := normalizeWeb3Args_trade_shape h0
    cases h1 : self.eventContract m with
    | none => simp [shortSellOutcomeTokens, shortSellIdealTrace, h0, h1]
    | some e =>
      cases h2 : self.collateralToken e with
      | none => simp [shortSellOutcomeTokens, shortSellIdealTrace, h0, h1, h2]
      | some tok =>
        cases h3 : self.submit m "shortSell"
            [Value.uint i, Value.uint c, Value.uint 0] with
        | none => simp [shortSellOutcomeTokens, shortSellIdealTrace, h0, h1, h2, h3]
        | some rc => simp [shortSellOutcomeTokens, shortSellIdealTrace, h0, h1, h2, h3]

/-- C1: for every call to `sellOutcomeTokens`, when the market fee
computed on the base profit exceeds the base profit reported by the
market maker, the operation rejects with an arithmetic failure and
submits no transaction at all — no sell with a silently clamped or
negatively wrapped `minProfit`. -/
theorem sellOutcomeTokens_fee_exceeds_profit_fails
    (self : Chain) (call : Web3Call) (m e tok : String) (i c p f : Nat)
    (h0 : normalizeWeb3Args call "sellOutcomeTokens" tradeFunctionInputs []
      = .ok [Value.addr m, Value.uint i, Value.uint c])
    (h1 : self.eventContract m = some e)
    (h2 : self.outcomeTokens e i = some tok)
    (h3 : self.calcProfit m i c = some p)
    (h4 : self.calcMarketFee m p = some f)
    (hf : p < f) :
    (sellOutcomeTokens self call).1 = .error .arithmeticFailure ∧
    (sellOutcomeTokens self call).2.all
      (fun a => !(NetworkAction.isTransaction a)) = true := by
  have hnle : ¬ f ≤ p := Nat.not_le.mpr hf
  have hs : checkedSub p f = .error .arithmeticFailure := by
    simp [checkedSub, hnle]
  constructor <;>
    simp [sellOutcomeTokens, h0, h1, h2, h3, h4, hs, NetworkAction.isTransaction]

/-- C1 witness: on the concrete chain whose market fee exceeds the
amount it is computed on, selling 10 tokens at index 0 rejects with an
arithmetic failure and performs no transaction. -/
theorem sellOutcomeTokens_fee_exceeds_profit_fails_witness :
    (sellOutcomeTokens feeExceedsChain testCall).1 = .error .arithmeticFailure ∧
    (sellOutcomeTokens feeExceedsChain testCall).2.all
      (fun a => !(NetworkAction.isTransaction a)) = true :=
  sellOutcomeTokens_fee_exceeds_profit_fails feeExceedsChain testCall
    marketAddr eventAddr outcomeAddr 0 10 100 101
    rfl rfl rfl rfl rfl (by decide)

/-- C2: for every call to `buyOutcomeTokens`, with base cost `b`
returned by the market maker's `calcCost` query and fee `f` returned by
the market's `calcMarketFee` query on that base cost, the cost submitted
as the third argument of the `buy` transaction is exactly `b + f`,
computed by exact arbitrary-precision integer addition. -/
theorem buyOutcomeTokens_cost_is_base_plus_fee
    (self : Chain) (call : Web3Call) (m e tok : String) (i c b f : Nat)
    (rc : TxReceipt)
    (h0 : normalizeWeb3Args call "buyOutcomeTokens" tradeFunctionInputs []
      = .ok [Value.addr m, Value.uint i, Value.uint c])
    (h1 : self.eventContract m = some e)
    (h2 : self.collateralToken e = some tok)
    (h3 : self.calcCost m i c = some b)
    (h4 : self.calcMarketFee m b = some f)
    (h5 : self.submit tok "approve" [Value.addr m, Value.uint c] = some rc)
    (h6 : requireEventFromTXResult rc "Approval" = .ok ()) :
    NetworkAction.transaction m "buy"
        [Value.uint i, Value.uint c, Value.uint (b + f)]
      ∈ (buyOutcomeTokens self call).2 ∧
    ∀ t args,
      NetworkAction.transaction t "buy" args ∈ (buyOutcomeTokens self call).2 →
      args = [Value.uint i, Value.uint c, Value.uint (b + f)] := by
  cases h7 : self.submit m "buy" [Value.uint i, Value.uint c, Value.uint (b + f)] with
  | none =>
    constructor
    · simp [buyOutcomeTokens, h0, h1, h2, h3, h4, h5, h6, h7]
    · intro t args hmem
      simp [buyOutcomeTokens, h0, h1, h2, h3, h4, h5, h6, h7] at hmem
      exact hmem.2
  | some rc2 =>
    constructor
    · simp [buyOutcomeTokens, h0, h1, h2, h3, h4, h5, h6, h7]
    · intro t args hmem
      simp [buyOutcomeTokens, h0, h1, h2, h3, h4, h5, h6, h7] at hmem
      exact hmem.2

/-- C2 witness: on the concrete chain of the spec's end-to-end scenario
(base cost 100, 5% fee), the `buy` transaction submitted for 10 tokens at
index 0 carries cost 105 = 100 + 5. -/
theorem buyOutcomeTokens_cost_is_base_plus_fee_witness :
    NetworkAction.transaction marketAddr "buy"
        [Value.uint 0, Value.uint 10, Value.uint (100 + 5)]
      ∈ (buyOutcomeTokens testChain testCall).2 :=
  (buyOutcomeTokens_cost_is_base_plus_fee testChain testCall
    marketAddr eventAddr tokenAddr 0 10 100 5 approvalReceipt
    rfl rfl rfl rfl rfl rfl rfl).1

/-- C3: for every call to `buyOutcomeTokens`, the approval transaction
submitted on the collateral token approves exactly the normalized
`outcomeTokenCount` value — never the computed total cost. -/
theorem buyOutcomeTokens_approves_count_not_cost
    (self : Chain) (call : Web3Call) (m e tok : String) (i c b f : Nat)
    (h0 : normalizeWeb3Args call "buyOutcomeTokens" tradeFunctionInputs []
      = .ok [Value.addr m, Value.uint i, Value.uint c])
    (h1 : self.eventContract m = some e)
    (h2 : self.collateralToken e = some tok)
    (h3 : self.calcCost m i c = some b)
    (h4 : self.calcMarketFee m b = some f) :
    NetworkAction.transaction tok "approve" [Value.addr m, Value.uint c]
      ∈ (buyOutcomeTokens self call).2 ∧
    ∀ t args,
      NetworkAction.transaction t "approve" args ∈ (buyOutcomeTokens self call).2 →
      args = [Value.addr m, Value.uint c] := by
  cases h5 : self.submit tok "approve" [Value.addr m, Value.uint c] with
  | none =>
    constructor
    · simp [buyOutcomeTokens, h0, h1, h2, h3, h4, h5]
    · intro t args hmem
      simp [buyOutcomeTokens, h0, h1, h2, h3, h4, h5] at hmem
      exact hmem.2
  | some rc =>
    cases h6 : requireEventFromTXResult rc "Approval" with
    | error err =>
      constructor
      · simp [buyOutcomeTokens, h0, h1, h2, h3, h4, h5, h6]
      · intro t args hmem
        simp [buyOutcomeTokens, h0, h1, h2, h3, h4, h5, h6] at hmem
        exact hmem.2
    | ok u =>
      cases h7 : self.submit m "buy" [Value.uint i, Value.uint c, Value.uint (b + f)] with
      | none =>
        constructor
        · simp [buyOutcomeTokens, h0, h1, h2, h3, h4, h5, h6, h7]
        · intro t args hmem
          simp [buyOutcomeTokens, h0, h1, h2, h3, h4, h5, h6, h7] at hmem
          exact hmem.2
      | some rc2 =>
        constructor
        · simp [buyOutcomeTokens, h0, h1, h2, h3, h4, h5, h6, h7]
        · intro t args hmem
          simp [buyOutcomeTokens, h0, h1, h2, h3, h4, h5, h6, h7] at hmem
          exact hmem.2

/-- C3 witness: on the concrete chain of the end-to-end scenario, the
approval submitted when buying 10 tokens approves 10 — the token count —
even though the computed total cost is 105 > 10. -/
theorem buyOutcomeTokens_approves_count_not_cost_witness :
    NetworkAction.transaction tokenAddr "approve"
        [Value.addr marketAddr, Value.uint 10]
      ∈ (buyOutcomeTokens testChain testCall).2 :=
  (buyOutcomeTokens_approves_count_not_cost testChain testCall
    marketAddr eventAddr tokenAddr 0 10 100 5
    rfl rfl rfl rfl rfl).1

/-- C4: the dispatch step returns the requested field exactly when an
event of the expected name is present in the receipt's decoded log: when
no event of that name is present it fails with `MissingEventError`
naming the expected event (so unrelated events never cause a false
match), and when the scan finds an event it is an event of the expected
name from the log and the returned value is that event's requested
field. -/
theorem sendTransactionAndGetResult_event_matching
    (rcpt : TxReceipt) (en an : String) :
    ((∀ ev ∈ rcpt.events, ev.name ≠ en) →
      sendTransactionAndGetResult rcpt en an = .error (.missingEventError en)) ∧
    (∀ ev, rcpt.events.find? (fun e => e.name == en) = some ev →
      ev ∈ rcpt.events ∧ ev.name = en ∧
      sendTransactionAndGetResult rcpt en an = .ok (ev.args.lookup an)) ∧
    ((∃ ev ∈ rcpt.events, ev.name = en) →
      ∃ ev, rcpt.events.find? (fun e => e.name == en) = some ev) := by
  refine ⟨?_, ?_, ?_⟩
  · intro h
    have hf : rcpt.events.find? (fun e => e.name == en) = none := by
      rw [List.find?_eq_none]
      intro ev hev
      simp [h ev hev]
    simp [sendTransactionAndGetResult, hf]
  · intro ev hf
    have hmem := List.mem_of_find?_eq_some hf
    have hname := List.find?_some hf
    simp only [beq_iff_eq] at hname
    exact ⟨hmem, hname, by simp [sendTransactionAndGetResult, hf]⟩
  · rintro ⟨ev, hmem, hname⟩
    cases hf : rcpt.events.find? (fun e => e.name == en) with
    | some ev2 => exact ⟨ev2, rfl⟩
    | none =>
      rw [List.find?_eq_none] at hf
      have := hf ev hmem
      simp [hname] at this

/-- C4 witness: on a receipt carrying an unrelated `Transfer` event and
then an `OutcomeTokenPurchase` event with `cost` 105, dispatch returns
105; on a receipt with only unrelated events it fails with
`MissingEventError` naming the expected event. -/
theorem sendTransactionAndGetResult_event_matching_witness :
    sendTransactionAndGetResult purchaseReceipt "OutcomeTokenPurchase" "cost"
      = .ok (some (Value.uint 105)) ∧
    sendTransactionAndGetResult unrelatedReceipt "OutcomeTokenPurchase" "cost"
      = .error (.missingEventError "OutcomeTokenPurchase") :=
  ⟨((sendTransactionAndGetResult_event_matching purchaseReceipt
      "OutcomeTokenPurchase" "cost").2.1 purchaseEvent rfl).2.2,
   (sendTransactionAndGetResult_event_matching unrelatedReceipt
      "OutcomeTokenPurchase" "cost").1 (by decide)⟩

/-- C5: every network action performed by `shortSellOutcomeTokens` is
either a read-only query that is not a pricing query
(`calcCost`/`calcMarketFee`), or a `shortSell` transaction whose third
argument is the literal cost floor 0 — in particular no approval
transaction is ever submitted. -/
theorem shortSellOutcomeTokens_floor_zero_no_approval
    (self : Chain) (call : Web3Call) :
    (shortSellOutcomeTokens self call).2.all shortSellActionOk = true := by
  cases h0 : normalizeWeb3Args call "shortSellOutcomeTokens" tradeFunctionInputs [] with
  | error e => simp [shortSellOutcomeTokens, h0]
  | ok vals =>
    obtain ⟨m, i, c, rfl, -, -, -⟩ := normalizeWeb3Args_trade_shape h0
    cases h1 : self.eventContract m with
    | none => simp [shortSellOutcomeTokens, h0, h1, shortSellActionOk]
    | some e =>
      cases h2 : self.collateralToken e with
      | none => simp [shortSellOutcomeTokens, h0, h1, h2, shortSellActionOk]
      | some tok =>
        cases h3 : self.submit m "shortSell"
            [Value.uint i, Value.uint c, Value.uint 0] with
        | none => simp [shortSellOutcomeTokens, h0, h1, h2, h3, shortSellActionOk]
        | some rc => simp [shortSellOutcomeTokens, h0, h1, h2, h3, shortSellActionOk]

/-- C6: a valid positional call and the equivalent single named-argument
mapping — the same values keyed by the signature's parameter names or by
aliases resolving to them — normalize to the same ordered, canonically
typed argument list. -/
theorem normalizeWeb3Args_positional_named_equiv
    (mn : String) (fis : List FunctionInput) (aliases : List (String × String))
    (ks : List String) (vs : List InputValue) (out : List Value)
    (hnd : (fis.map FunctionInput.name).Nodup)
    (hks : ks.map (resolveAlias aliases) = fis.map FunctionInput.name)
    (hpos : normalizeWeb3Args (.positional vs) mn fis aliases = .ok out) :
    normalizeWeb3Args (.named (ks.zip vs)) mn fis aliases = .ok out := by
  have hca : coerceAll fis vs = some out := by
    simp only [normalizeWeb3Args] at hpos
    cases hc : coerceAll fis vs with
    | none => rw [hc] at hpos; cases hpos
    | some o => rw [hc] at hpos; injection hpos with hpos; rw [hpos]
  have hlen : vs.length = fis.length := coerceAll_some_length hca
  have hres : (ks.zip vs).map (fun p => (resolveAlias aliases p.1, p.2))
      = (fis.map FunctionInput.name).zip vs := by
    rw [zip_map_resolve ks vs, hks]
  have hg : gatherNamed ((fis.map FunctionInput.name).zip vs) fis = some vs := by
    have := gatherNamed_zip fis vs [] hnd (by intro p hp; cases hp) hlen
    simpa using this
  simp [normalizeWeb3Args, hres, zip_names_all_recognized, hg, hca]

/-- C6 witness: the positional call for 10 tokens at index 0 and the
equivalent named mapping — using the alias `mkt` for `market` — both
normalize to the same ordered typed list. -/
theorem normalizeWeb3Args_positional_named_equiv_witness :
    normalizeWeb3Args
      (.named (["mkt", "outcomeTokenIndex", "outcomeTokenCount"].zip
        [.str marketAddr, .num 0, .num 10]))
      "buyOutcomeTokens" tradeFunctionInputs [("mkt", "market")]
      = .ok [Value.addr marketAddr, Value.uint 0, Value.uint 10] :=
  normalizeWeb3Args_positional_named_equiv
    "buyOutcomeTokens" tradeFunctionInputs [("mkt", "market")]
    ["mkt", "outcomeTokenIndex", "outcomeTokenCount"]
    [.str marketAddr, .num 0, .num 10]
    [Value.addr marketAddr, Value.uint 0, Value.uint 10]
    (by decide) rfl rfl

/-- C7: every malformed call — a named mapping omitting a required
parameter, a positional list whose length mismatches the signature, a
value not coercible to its declared type, or an unrecognized named
parameter — makes the Argument Normalizer fail with `ArgumentError`. -/
theorem normalizeWeb3Args_rejects_malformed
    (call : Web3Call) (mn : String) (fis : List FunctionInput)
    (aliases : List (String × String))
    (h : malformedCall call fis aliases = true) :
    normalizeWeb3Args call mn fis aliases = .error (.argumentError mn) :=
  normalizeWeb3Args_malformed mn h

/-- C7 witness: the named call omitting the required `market` parameter
is rejected with `ArgumentError`. -/
theorem normalizeWeb3Args_rejects_malformed_witness :
    normalizeWeb3Args missingMarketCall "buyOutcomeTokens" tradeFunctionInputs []
      = .error (.argumentError "buyOutcomeTokens") :=
  normalizeWeb3Args_rejects_malformed missingMarketCall "buyOutcomeTokens"
    tradeFunctionInputs [] (by decide)

/-- C8: a malformed call makes every market operation fail with
`ArgumentError` before any network interaction (empty action trace), and
every run of each operation performs an initial segment of its pipeline
— its trace is the ideal trace cut where the run stopped — so any step's
failure prevents all subsequent steps from executing. -/
theorem operations_abort_on_failure (self : Chain) (call : Web3Call) :
    (malformedCall call tradeFunctionInputs [] = true →
      buyOutcomeTokens self call
        = (.error (.argumentError "buyOutcomeTokens"), []) ∧
      sellOutcomeTokens self call
        = (.error (.argumentError "sellOutcomeTokens"), []) ∧
      shortSellOutcomeTokens self call
        = (.error (.argumentError "shortSellOutcomeTokens"), [])) ∧
    (buyOutcomeTokens self call).2
      = (buyIdealTrace self call).take (buyOutcomeTokens self call).2.length ∧
    (sellOutcomeTokens self call).2
      = (sellIdealTrace self call).take (sellOutcomeTokens self call).2.length ∧
    (shortSellOutcomeTokens self call).2
      = (shortSellIdealTrace self call).take
          (shortSellOutcomeTokens self call).2.length := by
  refine ⟨?_, buy_trace_take self call, sell_trace_take self call,
    shortSell_trace_take self call⟩
  intro h
  refine ⟨?_, ?_, ?_⟩
  · simp [buyOutcomeTokens, normalizeWeb3Args_malformed "buyOutcomeTokens" h]
  · simp [sellOutcomeTokens, normalizeWeb3Args_malformed "sellOutcomeTokens" h]
  · simp [shortSellOutcomeTokens,
      normalizeWeb3Args_malformed "shortSellOutcomeTokens" h]

/-- C8 witness: the named call omitting the required `market` parameter
makes `buyOutcomeTokens` fail with `ArgumentError` and an empty network
trace. -/
theorem operations_abort_on_failure_witness :
    buyOutcomeTokens testChain missingMarketCall
      = (.error (.argumentError "buyOutcomeTokens"), []) :=
  ((operations_abort_on_failure testChain missingMarketCall).1 (by decide)).1

/-- C9: `shortSellOutcomeTokens` reads the market's event contract and
its collateral token but discards the values: for any two value
assignments of those lookups (with the same transaction-submission
layer), the submitted transactions — target, method and arguments — and
the operation's result are identical. -/
theorem shortSellOutcomeTokens_independent_of_lookups
    (base1 base2 : Chain) (f1 g1 f2 g2 : String → String) (call : Web3Call)
    (hsub : base1.submit = base2.submit) :
    (shortSellOutcomeTokens (withLookups base1 f1 g1) call).1
      = (shortSellOutcomeTokens (withLookups base2 f2 g2) call).1 ∧
    (shortSellOutcomeTokens (withLookups base1 f1 g1) call).2.filter
        NetworkAction.isTransaction
      = (shortSellOutcomeTokens (withLookups base2 f2 g2) call).2.filter
        NetworkAction.isTransaction := by
  cases h0 : normalizeWeb3Args call "shortSellOutcomeTokens" tradeFunctionInputs [] with
  | error e => constructor <;> simp [shortSellOutcomeTokens, h0]
  | ok vals =>
    obtain ⟨m, i, c, rfl, -, -, -⟩ := normalizeWeb3Args_trade_shape h0
    cases h3 : base2.submit m "shortSell"
        [Value.uint i, Value.uint c, Value.uint 0] with
    | none =>
      constructor <;>
        simp [shortSellOutcomeTokens, h0, withLookups, hsub, h3,
          NetworkAction.isTransaction]
    | some rc =>
      constructor <;>
        simp [shortSellOutcomeTokens, h0, withLookups, hsub, h3,
          NetworkAction.isTransaction]

/-- C9 witness: on the concrete chain, swapping in entirely different
event-contract and collateral-token lookup values changes neither the
result of `shortSellOutcomeTokens` nor its submitted transactions. -/
theorem shortSellOutcomeTokens_independent_of_lookups_witness :
    (shortSellOutcomeTokens
        (withLookups testChain (fun _ => eventAddr) (fun _ => tokenAddr))
        testCall).1
      = (shortSellOutcomeTokens
          (withLookups testChain (fun _ => outcomeAddr) (fun _ => lmsrAddr))
          testCall).1 ∧
    (shortSellOutcomeTokens
        (withLookups testChain (fun _ => eventAddr) (fun _ => tokenAddr))
        testCall).2.filter NetworkAction.isTransaction
      = (shortSellOutcomeTokens
          (withLookups testChain (fun _ => outcomeAddr) (fun _ => lmsrAddr))
          testCall).2.filter NetworkAction.isTransaction :=
  shortSellOutcomeTokens_independent_of_lookups testChain testChain
    (fun _ => eventAddr) (fun _ => tokenAddr)
    (fun _ => outcomeAddr) (fun _ => lmsrAddr) testCall rfl

/-- C10: all three trading operations declare `outcomeTokenIndex` as
`uint8`, so an index of 256 or more is rejected with `ArgumentError`
before any network call (empty trace), while `outcomeTokenCount` is
declared `uint256` and any count below `2^256` (with an in-range index)
normalizes successfully. -/
theorem uint8_index_range_enforced
    (self : Chain) (a : String) (i j c : Nat)
    (ha : isValidAddress a = true)
    (hi : 256 ≤ i) (hj : j < 256) (hc : c < 2 ^ 256) :
    buyOutcomeTokens self (.positional [.str a, .num i, .num c])
      = (.error (.argumentError "buyOutcomeTokens"), []) ∧
    sellOutcomeTokens self (.positional [.str a, .num i, .num c])
      = (.error (.argumentError "sellOutcomeTokens"), []) ∧
    shortSellOutcomeTokens self (.positional [.str a, .num i, .num c])
      = (.error (.argumentError "shortSellOutcomeTokens"), []) ∧
    normalizeWeb3Args (.positional [.str a, .num j, .num c]) "buyOutcomeTokens"
      tradeFunctionInputs []
      = .ok [Value.addr a, Value.uint j, Value.uint c] := by
  have hni : ¬ i < 256 := by omega
  have hj8 : j < 256 := hj
  have hc8 : c < 115792089237316195423570985008687907853269984665640564039457584007913129639936 := by
    have h256 : (2 : Nat) ^ 256
        = 115792089237316195423570985008687907853269984665640564039457584007913129639936 := by
      norm_num
    omega
  have hbad : coerceAll tradeFunctionInputs [.str a, .num i, .num c] = none := by
    simp [tradeFunctionInputs, coerceAll, coerceValue, ha, hni]
  have hnorm : ∀ mn, normalizeWeb3Args (.positional [.str a, .num i, .num c])
      mn tradeFunctionInputs [] = .error (.argumentError mn) := by
    intro mn
    simp [normalizeWeb3Args, hbad]
  refine ⟨?_, ?_, ?_, ?_⟩
  · simp [buyOutcomeTokens, hnorm]
  · simp [sellOutcomeTokens, hnorm]
  · simp [shortSellOutcomeTokens, hnorm]
  · simp [normalizeWeb3Args, tradeFunctionInputs, coerceAll, coerceValue,
      ha, hj8, hc8]

/-- C10 witness: index 300 is rejected with `ArgumentError` and an empty
trace by all three operations, while index 5 with count `2^200`
normalizes successfully. -/
theorem uint8_index_range_enforced_witness :
    buyOutcomeTokens testChain (.positional [.str marketAddr, .num 300, .num (2 ^ 200)])
      = (.error (.argumentError "buyOutcomeTokens"), []) ∧
    sellOutcomeTokens testChain (.positional [.str marketAddr, .num 300, .num (2 ^ 200)])
      = (.error (.argumentError "sellOutcomeTokens"), []) ∧
    shortSellOutcomeTokens testChain
        (.positional [.str marketAddr, .num 300, .num (2 ^ 200)])
      = (.error (.argumentError "shortSellOutcomeTokens"), []) ∧
    normalizeWeb3Args (.positional [.str marketAddr, .num 5, .num (2 ^ 200)])
      "buyOutcomeTokens" tradeFunctionInputs []
      = .ok [Value.addr marketAddr, Value.uint 5, Value.uint (2 ^ 200)] :=
  uint8_index_range_enforced testChain marketAddr 300 5 (2 ^ 200)
    (by decide) (by decide) (by decide) (by decide)

end PmJs
